import Mathlib

/-!
Verification development for the NukeZone reminder bot
(src/nukezone_reminder_bot.py).

The Python source is embedded shallowly:

* `parse_duration_or_time` (source lines 19-48) becomes a pure Lean
  function over `List Char` / `String`, with the external
  `dateutil.parser.parse` call abstracted as an `absParse` parameter
  (it is a third-party library, not part of this repository); timestamps
  are modelled as `Int` seconds.
* the sqlite `actions` table becomes a `List Action`; the SQL statements
  of `action_cancel` (lines 213-224) and `action_list` (lines 189-199)
  become list operations.
* the timer worker (lines 79-116), the reconciler
  `load_and_schedule_all` (lines 118-124) and the cancel command are
  modelled as an interleaved small-step system: each `await` boundary in
  the worker separates the SELECT check, the UPDATE and the channel
  send, which is exactly the granularity at which the asyncio event
  loop can interleave other tasks.
-/

namespace NZ

/-! ### Character utilities

Python `str.strip` removes leading and trailing whitespace;
`str.replace(" ", "")` removes exactly the space character.  The regex
class `\s` covers ASCII whitespace (we model the ASCII fragment; every
input appearing in the claims is ASCII). -/

/-- ASCII whitespace, as matched by Python `\s` / stripped by `str.strip`. -/
def isWs (c : Char) : Bool :=
  c == ' ' || c == '\t' || c == '\n' || c == '\r' || c == '\x0b' || c == '\x0c'

/-- Embeds `s.replace(" ", "")` (source line 38): delete every space. -/
def removeSpaces (cs : List Char) : List Char :=
  cs.filter (fun c => c != ' ')

/-- Embeds `s.strip()` (source line 24): drop leading and trailing whitespace. -/
def stripWs (cs : List Char) : List Char :=
  ((cs.dropWhile isWs).reverse.dropWhile isWs).reverse

/-! ### The duration regex `DUR_RE` (source line 17)

`DUR_RE = (?:(\d+)d)?\s*(?:(\d+)h)?\s*(?:(\d+)m)?\s*(?:(\d+)s)?` with
`re.I`, used via `fullmatch`.  Each optional component is a maximal
digit run followed by its suffix letter; because a digit run can only
be closed by that component's own suffix letter, the greedy
left-to-right match below needs no backtracking: a component that can
match must match (skipping it leaves its suffix letter unconsumable by
the later components), and taking it consumes strictly more input. -/

/-- Numeric value of a digit character. -/
def digitVal (c : Char) : Nat := c.toNat - 48

/-- Maximal digit prefix (the greedy `\d+`). -/
def takeDigits : List Char → List Char × List Char
  | [] => ([], [])
  | c :: cs =>
    if c.isDigit then
      let td := takeDigits cs
      (c :: td.1, td.2)
    else ([], c :: cs)

/-- `int(...)` on a digit string. -/
def natOfDigits (ds : List Char) : Nat :=
  ds.foldl (fun a c => 10 * a + digitVal c) 0

/-- Case-insensitive character comparison (the `re.I` flag). -/
def eqIgnoreCase (a b : Char) : Bool := a.toLower == b.toLower

/-- One optional component `(?:(\d+)x)?` of `DUR_RE`: on success returns
the captured number and the rest; on failure the group is `none` and no
input is consumed. -/
def matchComp (suf : Char) (cs : List Char) : Option Nat × List Char :=
  let td := takeDigits cs
  match td.1, td.2 with
  | _ :: _, c :: r' =>
    if eqIgnoreCase c suf then (some (natOfDigits td.1), r') else (none, cs)
  | _, _ => (none, cs)

/-- The four named groups of `DUR_RE`. -/
structure DurGroups where
  days : Option Nat
  hours : Option Nat
  mins : Option Nat
  secs : Option Nat
deriving DecidableEq, Repr

/-- `DUR_RE.fullmatch` (source line 38): the whole input must be consumed. -/
def DUR_RE_fullmatch (cs : List Char) : Option DurGroups :=
  let m1 := matchComp 'd' cs
  let m2 := matchComp 'h' (m1.2.dropWhile isWs)
  let m3 := matchComp 'm' (m2.2.dropWhile isWs)
  let m4 := matchComp 's' (m3.2.dropWhile isWs)
  if m4.2 = [] then some ⟨m1.1, m2.1, m3.1, m4.1⟩ else none

/-- `timedelta(days, hours, mins, secs).total_seconds()` for the matched
groups, with absent groups read as 0 (source lines 41-45). -/
def durTotalG (g : DurGroups) : Nat :=
  86400 * g.days.getD 0 + 3600 * g.hours.getD 0 + 60 * g.mins.getD 0 + g.secs.getD 0

/-! ### The deadline parser `parse_duration_or_time` (source lines 19-48)

`dtparser.parse` is external (python-dateutil), so it is a parameter:
on success it yields the parsed wall-clock instant (read as UTC
seconds) together with the timezone offset it carried, if any.  The
source then either stamps UTC onto a naive result (line 30) or converts
an aware result to UTC (line 32). -/

/-- Result of the abstracted `dateutil` parse: the wall-clock instant read
as UTC seconds, and the timezone offset (seconds) if the string carried one. -/
structure AbsDT where
  wall : Int
  offset : Option Int
deriving DecidableEq, Repr

/-- Lines 28-33: naive datetimes get `tzinfo=utc` stamped on (wall time kept),
aware ones are converted (`astimezone(utc)` subtracts the offset). -/
def absToUTC (dt : AbsDT) : Int :=
  match dt.offset with
  | none => dt.wall
  | some off => dt.wall - off

/-- The error message of source line 40 (pattern did not match). -/
def hintMsg : String :=
  "Could not parse duration. Try formats like \x278h\x27, \x278h30m\x27, \x2745m\x27, \x271d2h\x27, or a datetime like \x272025-10-22 23:40\x27."

/-- The error message of source line 47 (non-positive total duration). -/
def posMsg : String := "Duration must be > 0."

/-- Embeds `parse_duration_or_time` (source lines 19-48).
`absParse` abstracts `dateutil.parser.parse` applied to the stripped
input (returning `none` when the library raises). -/
def parse_duration_or_time (absParse : List Char → Option AbsDT)
    (s : String) (now_utc : Int) : Except String Int :=
  let cs := stripWs s.toList
  match absParse cs with
  | some dt => .ok (absToUTC dt)
  | none =>
    match DUR_RE_fullmatch (removeSpaces cs) with
    | none => .error hintMsg
    | some g =>
      if durTotalG g = 0 then .error posMsg
      else .ok (now_utc + (durTotalG g : Int))

/-! ### The `actions` table and the SQL commands

One row of the sqlite table `actions` (source lines 55-68).  Timestamps
(`created_at`, `ends_at`) are modelled as `Int` UTC seconds: the source
stores them as timezone-bearing ISO-8601 UTC strings whose
`ORDER BY`-relevant lexicographic order agrees with chronological
order, and parses them back with `datetime.fromisoformat`. -/
structure Action where
  id : Nat
  guild_id : Int
  user_id : Int
  channel_id : Int
  action_type : String
  target : String
  note : Option String
  created_at : Int
  ends_at : Int
  done : Bool
deriving DecidableEq, Repr

/-- The `WHERE` clause of the cancel statement (source line 218):
`id=? AND user_id=? AND guild_id=? AND done=0`. -/
def cancelMatches (a : Action) (aid : Nat) (uid gid : Int) : Bool :=
  decide (a.id = aid ∧ a.user_id = uid ∧ a.guild_id = gid ∧ a.done = false)

/-- Embeds the body of `/action_cancel` (source lines 213-224):
`UPDATE actions SET done=1 WHERE id=? AND user_id=? AND guild_id=? AND done=0`,
reporting success as `cur.rowcount != 0`. -/
def action_cancel (st : List Action) (aid : Nat) (uid gid : Int) :
    List Action × Bool :=
  (st.map (fun a => if cancelMatches a aid uid gid then { a with done := true } else a),
   st.any (fun a => cancelMatches a aid uid gid))

/-- The `WHERE` clause of the list query (source line 193):
`guild_id=? AND user_id=? AND done=0`. -/
def listMatches (a : Action) (gid uid : Int) : Bool :=
  decide (a.guild_id = gid ∧ a.user_id = uid ∧ a.done = false)

/-- The `ORDER BY ends_at ASC` ordering. -/
def endsAtLe (a b : Action) : Prop := a.ends_at ≤ b.ends_at

instance : DecidableRel endsAtLe := fun a b => Int.decLe a.ends_at b.ends_at

instance : IsTotal Action endsAtLe := ⟨fun a b => Int.le_total a.ends_at b.ends_at⟩

instance : IsTrans Action endsAtLe := ⟨fun _ _ _ h1 h2 => le_trans h1 h2⟩

/-- Embeds the query of `/action_list` (source lines 191-195):
`SELECT * FROM actions WHERE guild_id=? AND user_id=? AND done=0 ORDER BY ends_at ASC`. -/
def action_list (st : List Action) (gid uid : Int) : List Action :=
  List.insertionSort endsAtLe (st.filter (fun a => listMatches a gid uid))

/-! ### The timer engine -/

/-- The delay computation of `schedule_task` (source lines 73-77):
`delay = (ends_at - now).total_seconds(); if delay < 0: delay = 0`. -/
def computeDelay (ends_at now : Int) : Int :=
  let delay := ends_at - now
  if delay < 0 then 0 else delay

/-- Program counter of one spawned `worker` coroutine (source lines
79-116).  Each constructor is a resumption point at an `await`
boundary of the worker, after its sleep has elapsed:
`atSelect` is about to run the `SELECT ... WHERE id=? AND done=0`
check (line 84); `atMark` has fetched a row and is about to run the
unconditional `UPDATE actions SET done=1 WHERE id=?` (line 89);
`atNotify` is about to send the channel message (lines 92-114);
`finished` has returned. -/
inductive WPC where
  | atSelect
  | atMark
  | atNotify
  | finished
deriving DecidableEq, Repr

/-- One live asyncio task created by `schedule_task` (source line 116),
identified by the `row["id"]` its closure captured. -/
structure WTask where
  aid : Nat
  pc : WPC
deriving DecidableEq, Repr

/-- Whole-system state: the persisted table, the live worker tasks, and
the log of action ids for which a completion notification was sent. -/
structure Sys where
  rows : List Action
  tasks : List WTask
  log : List Nat
deriving DecidableEq, Repr

/-- `SELECT * FROM actions WHERE id=? AND done=0` (source line 84). -/
def selectPending (rows : List Action) (aid : Nat) : Option Action :=
  rows.find? (fun a => decide (a.id = aid ∧ a.done = false))

/-- `UPDATE actions SET done=1 WHERE id=?` (source line 89) — note: no
`done=0` condition. -/
def setDoneById (rows : List Action) (aid : Nat) : List Action :=
  rows.map (fun a => if a.id = aid then { a with done := true } else a)

/-- Advance worker task `i` by one step (one `await`-delimited slice of
`worker`, source lines 79-116).  A task whose `SELECT` finds no
pending row returns at once (line 87); otherwise it marks the row done
and then sends the notification. -/
def stepTask (s : Sys) (i : Nat) : Sys :=
  match s.tasks[i]? with
  | none => s
  | some t =>
    match t.pc with
    | .atSelect =>
      match selectPending s.rows t.aid with
      | none => { s with tasks := s.tasks.set i { t with pc := .finished } }
      | some _ => { s with tasks := s.tasks.set i { t with pc := .atMark } }
    | .atMark =>
      { rows := setDoneById s.rows t.aid
        tasks := s.tasks.set i { t with pc := .atNotify }
        log := s.log }
    | .atNotify =>
      { s with tasks := s.tasks.set i { t with pc := .finished }
               log := s.log ++ [t.aid] }
    | .finished => s

/-- Run a sequence of scheduling choices (each entry picks which task
the event loop resumes next). -/
def runSys (s : Sys) (choices : List Nat) : Sys :=
  choices.foldl stepTask s

/-- Embeds `load_and_schedule_all` (source lines 118-124): arm one
worker per `done=0` row.  (Each armed worker's sleep is
`computeDelay`; a row with `ends_at` in the past gets delay 0, so its
worker is immediately runnable.) -/
def load_and_schedule_all (s : Sys) : Sys :=
  { s with tasks := s.tasks ++ (s.rows.filter (fun a => a.done = false)).map (fun a => ⟨a.id, .atSelect⟩) }

/-- An `/action_cancel` request interleaved with the workers.  The whole
SQL `UPDATE` is a single atomic step (sqlite serializes single
statements). -/
def cancelStep (s : Sys) (aid : Nat) (uid gid : Int) : Sys × Bool :=
  let (rows, ok) := action_cancel s.rows aid uid gid
  ({ s with rows := rows }, ok)

/-! ### The notification tail of the worker (source lines 92-114)

Channel resolution: `bot.get_channel`, falling back to
`bot.fetch_channel` inside `try/except` (a raise leaves the channel
`None`); then `channel.send` inside `try/except Exception: pass`.  The
external Discord client is abstracted: `g` is the `get_channel`
result, `f` the `fetch_channel` outcome, `snd` the `send` outcome. -/

/-- Lines 92-98: resolve the destination channel, swallowing fetch errors. -/
def resolveChannel (g : Option Unit) (f : Except Unit Unit) : Option Unit :=
  match g with
  | some c => some c
  | none =>
    match f with
    | .ok c => some c
    | .error _ => none

/-- Lines 110-114: the guarded send.  Returns the number of messages
delivered; an `.error` result would mean an exception escaping the
worker. -/
def notifySend (g : Option Unit) (f : Except Unit Unit)
    (snd : Except Unit Unit) : Except Unit Nat :=
  match resolveChannel g f with
  | none => .ok 0
  | some _ =>
    match snd with
    | .ok _ => .ok 1
    | .error _ => .ok 0

/-! ### A generator for canonical duration strings

Duration strings "composed of optional integer components with
suffixes d, h, m, s in that order, each appearing at most once"
(spec §4.1) are produced explicitly, with optional spaces between
components and either letter case for each suffix, so that the claimed
parse equation can be proved for the whole family. -/

/-- Decimal digit character for `d < 10`. -/
def digitChar (d : Nat) : Char :=
  if d = 0 then '0' else if d = 1 then '1' else if d = 2 then '2'
  else if d = 3 then '3' else if d = 4 then '4' else if d = 5 then '5'
  else if d = 6 then '6' else if d = 7 then '7' else if d = 8 then '8' else '9'

/-- Fuelled digit rendering (structural recursion, so that concrete
witnesses evaluate inside the kernel). -/
def renderNatAux : Nat → Nat → List Char
  | _, 0 => []
  | 0, _ => []
  | fuel + 1, n + 1 => renderNatAux fuel ((n + 1) / 10) ++ [digitChar ((n + 1) % 10)]

/-- Canonical decimal rendering of a natural number. -/
def renderNat (n : Nat) : List Char :=
  if n = 0 then ['0'] else renderNatAux n n

/-- Either letter case of a suffix (the pattern is compiled with `re.I`). -/
def sufOf (base : Char) (upper : Bool) : Char :=
  if upper then base.toUpper else base

/-- One optional rendered component: the number followed by its suffix. -/
def comp (o : Option Nat) (suf : Char) : List Char :=
  match o with
  | none => []
  | some n => renderNat n ++ [suf]

/-- A run of `k` spaces. -/
def spacesN (k : Nat) : List Char := List.replicate k ' '

/-- A canonical duration string without separators. -/
def genDur (od oh om os : Option Nat) (bd bh bm bs : Bool) : List Char :=
  comp od (sufOf 'd' bd) ++ comp oh (sufOf 'h' bh) ++ comp om (sufOf 'm' bm) ++ comp os (sufOf 's' bs)

/-- A duration string with optional space separators between components. -/
def genDurSp (od oh om os : Option Nat) (w1 w2 w3 : Nat) (bd bh bm bs : Bool) : List Char :=
  comp od (sufOf 'd' bd) ++ spacesN w1 ++ comp oh (sufOf 'h' bh) ++ spacesN w2 ++ comp om (sufOf 'm' bm) ++ spacesN w3 ++ comp os (sufOf 's' bs)

/-- Total seconds encoded by the four optional components. -/
def durTotal (od oh om os : Option Nat) : Nat :=
  86400 * od.getD 0 + 3600 * oh.getD 0 + 60 * om.getD 0 + os.getD 0

/-! ### Substring matching (used to state what an error message carries) -/

/-- Whether `pat` is an initial segment of `l`. -/
def startsWithChars : List Char → List Char → Bool
  | [], _ => true
  | _ :: _, [] => false
  | p :: ps, c :: cs => p == c && startsWithChars ps cs

/-- Whether `pat` occurs as a contiguous substring of `l`. -/
def hasSub (pat : List Char) : List Char → Bool
  | [] => startsWithChars pat []
  | c :: cs => startsWithChars pat (c :: cs) || hasSub pat cs

/-- Whether a message mentions at least one of the accepted duration
formats the spec requires the hint to list. -/
def mentionsAcceptedFormats (m : String) : Bool :=
  hasSub "8h".toList m.toList || hasSub "45m".toList m.toList || hasSub "1d2h".toList m.toList

/-! ### Concrete race scenarios (claims about the worker's guard)

`row1` is the restart-recovery row of the spec (`ends_at` 5 seconds in
the past at `now = 0`, not yet done). -/

/-- A pending action whose deadline has already passed. -/
def row1 : Action :=
  { id := 1, guild_id := 7, user_id := 5, channel_id := 9,
    action_type := "Spy", target := "X", note := none,
    created_at := -100, ends_at := -5, done := false }

/-- Store with the single overdue row and the Reconciler run twice:
two armed workers for action 1, both with delay clamped to 0. -/
def sysC2 : Sys :=
  load_and_schedule_all (load_and_schedule_all { rows := [row1], tasks := [], log := [] })

/-- Store with the single overdue row and one armed worker. -/
def sysC1 : Sys := { rows := [row1], tasks := [⟨1, .atSelect⟩], log := [] }

/-! ## Theorems -/

/-- C1.  The claim requires the `done` transition to happen only through
an atomic conditional update, so that a firing or cancel racing with a
completed transition has no side effect.  The worker instead runs a
`SELECT ... done=0` check and a separate unconditional
`UPDATE ... SET done=1 WHERE id=?`: this theorem evaluates the failing
interleaving.  One worker is armed for the overdue row; it passes its
SELECT check; then the owner's `/action_cancel` runs and succeeds
(atomically, row now `done=true`); the worker nevertheless resumes,
re-marks the row and sends the notification.  So a transition race that
should be a no-op still fires a side effect: the user is told the
cancel took effect and is pinged anyway. -/
theorem claim_C1_nonatomic_completion :
    (cancelStep (stepTask sysC1 0) 1 5 7).2 = true ∧
    ((cancelStep (stepTask sysC1 0) 1 5 7).1.rows.all (fun a => a.done)) = true ∧
    (runSys (cancelStep (stepTask sysC1 0) 1 5 7).1 [0, 0]).log = [1] :=
  ⟨rfl, rfl, rfl⟩

/-- C2.  Restart recovery with the Reconciler run twice: the store holds
one overdue `done=false` row, `load_and_schedule_all` runs twice, so two
workers are armed for action 1.  The claim says exactly one notification
is delivered across both timers.  In the interleaving where both workers
pass their `SELECT ... done=0` check before either runs its `UPDATE`,
both then notify: the log ends as `[1, 1]` — two notifications for the
single row (the `done` flag itself flips only once). -/
theorem claim_C2_double_reconcile_double_fire :
    sysC2.tasks.length = 2 ∧
    (runSys sysC2 [0, 1, 0, 0, 1, 1]).log = [1, 1] ∧
    (runSys sysC2 [0, 1, 0, 0, 1, 1]).rows = [{ row1 with done := true }] :=
  ⟨rfl, rfl, rfl⟩

/-- C3.  The parser tries the absolute interpretation first: whenever the
abstracted `dateutil` parse succeeds on the stripped input, the result is
that instant normalised to UTC (missing timezone read as UTC, an offset
subtracted out), and the result does not depend on `now` — the duration
pattern is never consulted, even for inputs that also match it. -/
theorem claim_C3_absolute_first (absParse : List Char → Option AbsDT) (s : String)
    (now now' : Int) (dt : AbsDT) (h : absParse (stripWs s.toList) = some dt) :
    parse_duration_or_time absParse s now = .ok (absToUTC dt) ∧
    parse_duration_or_time absParse s now = parse_duration_or_time absParse s now' := by
  simp only [String.toList] at h
  constructor <;> simp only [parse_duration_or_time, String.toList] <;> rw [h]

/-- Witness for C3 at a concrete input: `"8h"` matches the duration
syntax, yet with an absolute parse that succeeds (aware instant, wall
100, offset 3600) the result is the UTC conversion `100 - 3600`,
independent of `now`. -/
theorem claim_C3_absolute_first_witness :
    parse_duration_or_time (fun _ => some ⟨100, some 3600⟩) "8h" 0 = .ok (-3500) ∧
    parse_duration_or_time (fun _ => some ⟨100, some 3600⟩) "8h" 0 =
      parse_duration_or_time (fun _ => some ⟨100, some 3600⟩) "8h" 5 :=
  claim_C3_absolute_first (fun _ => some ⟨100, some 3600⟩) "8h" 0 5 ⟨100, some 3600⟩ rfl

/-- C5.  The armed delay is `max(0, ends_at - now)`: never negative, and
exactly zero whenever the deadline is already in the past. -/
theorem claim_C5_delay_clamped (e n : Int) :
    computeDelay e n = max 0 (e - n) ∧ 0 ≤ computeDelay e n ∧
    (e < n → computeDelay e n = 0) := by
  refine ⟨?_, ?_, fun h => ?_⟩ <;> simp only [computeDelay] <;> split <;> omega

/-- Witness for C5: a deadline 5 seconds in the past is clamped to 0. -/
theorem claim_C5_delay_clamped_witness :
    computeDelay 0 5 = max 0 (0 - 5) ∧ 0 ≤ computeDelay 0 5 ∧ computeDelay 0 5 = 0 :=
  ⟨(claim_C5_delay_clamped 0 5).1, (claim_C5_delay_clamped 0 5).2.1,
   (claim_C5_delay_clamped 0 5).2.2 (by decide)⟩

/-- C9.  Delivery failure is swallowed: whatever the channel lookup, the
fetch fallback and the send do, the notification tail returns normally
(never an escaping exception) and delivers at most one message;  the
notify step of a worker never touches the store (the row stays `done`)
and just retires the task; a finished task never runs again, so nothing
is retried or re-notified. -/
theorem claim_C9_delivery_failure_swallowed :
    (∀ g f snd, ∃ k, notifySend g f snd = .ok k ∧ k ≤ 1) ∧
    (∀ s i t, s.tasks[i]? = some t → t.pc = .atNotify →
      (stepTask s i).rows = s.rows ∧
      (stepTask s i).tasks = s.tasks.set i { t with pc := .finished } ∧
      (stepTask s i).log = s.log ++ [t.aid]) ∧
    (∀ s i t, s.tasks[i]? = some t → t.pc = .finished → stepTask s i = s) := by
  refine ⟨?_, ?_, ?_⟩
  · intro g f snd
    rcases g with _ | c <;> rcases f with e | c' <;> rcases snd with e' | u <;>
      exact ⟨_, rfl, by omega⟩
  · intro s i t h1 h2
    obtain ⟨aid, pc⟩ := t
    simp only at h2
    subst h2
    simp [stepTask, h1]
  · intro s i t h1 h2
    obtain ⟨aid, pc⟩ := t
    simp only at h2
    subst h2
    simp [stepTask, h1]

/-- Witness for C9: a failing fetch and a raising send still return
normally with zero deliveries; a concrete notify step keeps the rows and
a finished task is inert. -/
theorem claim_C9_delivery_failure_swallowed_witness :
    (∃ k, notifySend none (.error ()) (.error ()) = .ok k ∧ k ≤ 1) ∧
    (stepTask { rows := [row1], tasks := [⟨1, .atNotify⟩], log := [] } 0).rows = [row1] ∧
    stepTask { rows := [row1], tasks := [⟨1, .finished⟩], log := [] } 0 =
      { rows := [row1], tasks := [⟨1, .finished⟩], log := [] } :=
  ⟨claim_C9_delivery_failure_swallowed.1 none (.error ()) (.error ()),
   (claim_C9_delivery_failure_swallowed.2.1
      { rows := [row1], tasks := [⟨1, .atNotify⟩], log := [] } 0 ⟨1, .atNotify⟩ rfl rfl).1,
   claim_C9_delivery_failure_swallowed.2.2
      { rows := [row1], tasks := [⟨1, .finished⟩], log := [] } 0 ⟨1, .finished⟩ rfl rfl⟩

/-- C6.  Cancellation semantics: the `UPDATE ... WHERE id=? AND user_id=?
AND guild_id=? AND done=0` succeeds (`rowcount != 0`) exactly when a row
with that id, owner and guild is still pending; on failure the store is
unchanged; and after a successful cancel a second cancel of the same id
always fails, whatever guild or user it quotes (ids are unique: the
column is an `AUTOINCREMENT` primary key, hence the `Nodup`
hypothesis). -/
theorem claim_C6_cancel_semantics (st : List Action) (aid : Nat)
    (uid gid uid' gid' : Int) (hnd : (st.map (fun a => a.id)).Nodup) :
    ((action_cancel st aid uid gid).2 = true ↔
      ∃ a ∈ st, a.id = aid ∧ a.user_id = uid ∧ a.guild_id = gid ∧ a.done = false) ∧
    ((action_cancel st aid uid gid).2 = false → (action_cancel st aid uid gid).1 = st) ∧
    ((action_cancel st aid uid gid).2 = true →
      (action_cancel (action_cancel st aid uid gid).1 aid uid' gid').2 = false) := by
  refine ⟨?_, ?_, ?_⟩
  · simp [action_cancel, cancelMatches, List.any_eq_true]
  · intro hfail
    simp only [action_cancel, List.any_eq_false] at hfail
    simp only [action_cancel]
    calc st.map (fun a => if cancelMatches a aid uid gid then { a with done := true } else a)
        = st.map id := List.map_congr_left (fun a ha => by rw [if_neg (hfail a ha)]; rfl)
      _ = st := List.map_id st
  · intro hok
    simp only [action_cancel, List.any_eq_true, cancelMatches, decide_eq_true_eq] at hok
    obtain ⟨a, ha, haid, hauid, hagid, hadone⟩ := hok
    simp only [action_cancel, List.any_eq_false]
    intro b' hb'
    rw [List.mem_map] at hb'
    obtain ⟨b, hb, rfl⟩ := hb'
    by_cases hbm : cancelMatches b aid uid gid = true
    · rw [if_pos hbm]
      simp [cancelMatches]
    · rw [if_neg hbm]
      simp only [cancelMatches, decide_eq_true_eq] at hbm
      simp only [cancelMatches, decide_eq_true_eq]
      rintro ⟨hbid, -, -, hbdone⟩
      have hba : b = a := List.inj_on_of_nodup_map hnd hb ha (by rw [haid, hbid])
      subst hba
      exact hbm ⟨hbid, hauid, hagid, hbdone⟩

/-- Witness for C6 at the single-row store: the owner's cancel succeeds
and a repeat cancel fails. -/
theorem claim_C6_cancel_semantics_witness :
    (((action_cancel [row1] 1 5 7).2 = true ↔
      ∃ a ∈ [row1], a.id = 1 ∧ a.user_id = 5 ∧ a.guild_id = 7 ∧ a.done = false) ∧
    ((action_cancel [row1] 1 5 7).2 = false → (action_cancel [row1] 1 5 7).1 = [row1]) ∧
    ((action_cancel [row1] 1 5 7).2 = true →
      (action_cancel (action_cancel [row1] 1 5 7).1 1 5 7).2 = false)) ∧
    (action_cancel [row1] 1 5 7).2 = true :=
  ⟨claim_C6_cancel_semantics [row1] 1 5 7 5 7 (by decide), rfl⟩

/-- C7.  Listing semantics: `action_list` returns exactly the pending
(`done=false`) rows of the requesting guild and user, sorted ascending by
`ends_at`, and is the empty list (not an error) when no row matches. -/
theorem claim_C7_listing (st : List Action) (gid uid : Int) :
    (∀ a, a ∈ action_list st gid uid ↔
      a ∈ st ∧ a.guild_id = gid ∧ a.user_id = uid ∧ a.done = false) ∧
    (action_list st gid uid).Sorted endsAtLe ∧
    ((∀ a ∈ st, ¬(a.guild_id = gid ∧ a.user_id = uid ∧ a.done = false)) →
      action_list st gid uid = []) := by
  refine ⟨?_, ?_, ?_⟩
  · intro a
    simp [action_list, List.mem_insertionSort, List.mem_filter, listMatches]
  · exact List.sorted_insertionSort endsAtLe _
  · intro hnone
    have : st.filter (fun a => listMatches a gid uid) = [] := by
      rw [List.filter_eq_nil_iff]
      intro a ha
      simp only [listMatches, decide_eq_true_eq]
      exact hnone a ha
    simp [action_list, this]

/-- Witness for C7: the single pending row is listed for its owner, the
result is sorted, and a foreign guild gets the empty list. -/
theorem claim_C7_listing_witness :
    (row1 ∈ action_list [row1] 7 5 ↔
      row1 ∈ [row1] ∧ row1.guild_id = 7 ∧ row1.user_id = 5 ∧ row1.done = false) ∧
    (action_list [row1] 7 5).Sorted endsAtLe ∧
    action_list [row1] 8 5 = [] :=
  ⟨(claim_C7_listing [row1] 7 5).1 row1, (claim_C7_listing [row1] 7 5).2.1,
   (claim_C7_listing [row1] 8 5).2.2 (by decide)⟩

/-- Deleting spaces commutes with dropping a leading whitespace run
(spaces are themselves whitespace, so removing them inside the run does
not change where the run ends). -/
lemma removeSpaces_dropWhile (l : List Char) :
    removeSpaces (l.dropWhile isWs) = (removeSpaces l).dropWhile isWs := by
  induction l with
  | nil => rfl
  | cons c l ih =>
    by_cases hs : c = ' '
    · subst hs
      simpa [removeSpaces, List.dropWhile_cons, List.filter_cons] using ih
    · have hs' : (c != ' ') = true := by simpa using hs
      by_cases hw : isWs c = true
      · simpa [removeSpaces, List.dropWhile_cons, List.filter_cons, hw, hs'] using ih
      · simp only [Bool.not_eq_true] at hw
        simp [removeSpaces, List.dropWhile_cons, List.filter_cons, hw, hs']

/-- Deleting spaces commutes with reversal. -/
lemma removeSpaces_reverse (l : List Char) :
    removeSpaces l.reverse = (removeSpaces l).reverse := by
  simp [removeSpaces, List.filter_reverse]

/-- Deleting spaces commutes with `strip`. -/
lemma removeSpaces_stripWs (l : List Char) :
    removeSpaces (stripWs l) = stripWs (removeSpaces l) := by
  unfold stripWs
  rw [removeSpaces_reverse, removeSpaces_dropWhile, removeSpaces_reverse,
    removeSpaces_dropWhile]

/-- Deleting spaces twice is deleting them once. -/
lemma removeSpaces_idem (l : List Char) :
    removeSpaces (removeSpaces l) = removeSpaces l := by
  simp [removeSpaces, List.filter_filter]

/-- C10.  The duration interpretation is invariant under removal of all
space characters: the parser itself deletes every space before matching
`DUR_RE`, so as long as neither form takes the absolute-datetime branch,
parsing a string and parsing its space-free form agree. -/
theorem claim_C10_space_invariance (absParse : List Char → Option AbsDT)
    (s : String) (now : Int)
    (h1 : absParse (stripWs s.toList) = none)
    (h2 : absParse (stripWs (removeSpaces s.toList)) = none) :
    parse_duration_or_time absParse s now =
      parse_duration_or_time absParse (String.mk (removeSpaces s.toList)) now := by
  simp only [String.toList] at h1 h2
  have key : removeSpaces (stripWs (removeSpaces s.data)) = removeSpaces (stripWs s.data) := by
    rw [removeSpaces_stripWs, removeSpaces_idem, ← removeSpaces_stripWs]
  simp only [parse_duration_or_time, String.toList]
  rw [h1, h2, key]

/-- Witness for C10: `"4 5m"` (space inside the number) parses exactly
like `"45m"`, namely as 45 minutes. -/
theorem claim_C10_space_invariance_witness :
    parse_duration_or_time (fun _ => none) "4 5m" 0 =
      parse_duration_or_time (fun _ => none) (String.mk (removeSpaces "4 5m".toList)) 0 ∧
    parse_duration_or_time (fun _ => none) "4 5m" 0 = .ok 2700 :=
  ⟨claim_C10_space_invariance (fun _ => none) "4 5m" 0 rfl rfl, rfl⟩

/-- C8, counterexample.  The claim says the all-absent-or-zero duration
case fails with a `ParseError` carrying a hint of accepted formats.  On
the empty string (and on pure whitespace) the pattern matches with every
group absent, so the parser raises `"Duration must be > 0."` — a
`ParseError`, but one that names no accepted format (unlike the
no-match message, which does). -/
theorem claim_C8_counterexample :
    parse_duration_or_time (fun _ => none) "" 0 = .error posMsg ∧
    parse_duration_or_time (fun _ => none) " " 0 = .error posMsg ∧
    mentionsAcceptedFormats posMsg = false ∧
    mentionsAcceptedFormats hintMsg = true := by
  refine ⟨rfl, rfl, by decide, by decide⟩

/-- C8, amended.  Inputs whose duration interpretation is all-absent or
all-zero (the empty string and pure whitespace included) and that do not
parse as an absolute datetime fail with a `ParseError`; the
format-listing hint, however, is carried only by the pattern-mismatch
error, while the all-zero case fails with the hint-free message
`"Duration must be > 0."`. -/
theorem claim_C8_zero_duration_error (absParse : List Char → Option AbsDT)
    (s : String) (now : Int)
    (habs : absParse (stripWs s.toList) = none) :
    (DUR_RE_fullmatch (removeSpaces (stripWs s.toList)) = none →
      parse_duration_or_time absParse s now = .error hintMsg ∧
      mentionsAcceptedFormats hintMsg = true) ∧
    (∀ g, DUR_RE_fullmatch (removeSpaces (stripWs s.toList)) = some g →
      durTotalG g = 0 → parse_duration_or_time absParse s now = .error posMsg) := by
  simp only [String.toList] at habs ⊢
  constructor
  · intro h
    refine ⟨?_, by decide⟩
    simp only [parse_duration_or_time, String.toList]
    rw [habs, h]
  · intro g hg hz
    simp only [parse_duration_or_time, String.toList]
    rw [habs, hg]
    simp [hz]

/-- Witness for C8: the empty string errors with the hint-free zero
message, `"abc"` errors with the hint-carrying message. -/
theorem claim_C8_zero_duration_error_witness :
    parse_duration_or_time (fun _ => none) "" 0 = .error posMsg ∧
    parse_duration_or_time (fun _ => none) "abc" 0 = .error hintMsg :=
  ⟨(claim_C8_zero_duration_error (fun _ => none) "" 0 rfl).2 ⟨none, none, none, none⟩ rfl rfl,
   ((claim_C8_zero_duration_error (fun _ => none) "abc" 0 rfl).1 rfl).1⟩

/-- Character facts for the ten digit characters, checked by evaluation. -/
lemma digitChar_props : ∀ d < 10, (digitChar d).isDigit = true ∧
    isWs (digitChar d) = false ∧ (digitChar d != ' ') = true ∧
    digitVal (digitChar d) = d := by decide

/-- Suffix-letter facts: for the four component letters, either case is a
non-digit non-whitespace character, and case-insensitive comparison of
variants reduces to equality on the base letters. -/
lemma sufOf_facts : ∀ (b : Bool), ∀ x ∈ ['d', 'h', 'm', 's'], ∀ y ∈ ['d', 'h', 'm', 's'],
    (sufOf x b).isDigit = false ∧ isWs (sufOf x b) = false ∧
    (sufOf x b != ' ') = true ∧ eqIgnoreCase (sufOf x b) y = (x == y) := by decide

/-- The fuelled rendering agrees with `Nat.digits` (most significant
digit first) whenever the fuel covers the number. -/
lemma renderNatAux_eq : ∀ fuel n, n ≤ fuel →
    renderNatAux fuel n = ((Nat.digits 10 n).map digitChar).reverse := by
  intro fuel
  induction fuel with
  | zero =>
    intro n hn
    interval_cases n
    simp [renderNatAux]
  | succ fuel ih =>
    intro n hn
    cases n with
    | zero => simp [renderNatAux]
    | succ m =>
      have hdiv : (m + 1) / 10 ≤ fuel := by
        have := Nat.div_lt_self (Nat.succ_pos m) (by norm_num : 1 < 10)
        omega
      rw [renderNatAux, ih _ hdiv,
        Nat.digits_def' (by norm_num : 1 < 10) (Nat.succ_pos m)]
      simp

/-- On positive input the rendering is the reversed digit list. -/
lemma renderNat_eq_digits {n : Nat} (h0 : n ≠ 0) :
    renderNat n = ((Nat.digits 10 n).map digitChar).reverse := by
  rw [renderNat, if_neg h0]
  exact renderNatAux_eq n n le_rfl

/-- Every character of a rendered numeral is a digit (hence neither
whitespace nor a space). -/
lemma renderNat_mem {n : Nat} {c : Char} (hc : c ∈ renderNat n) :
    c.isDigit = true ∧ isWs c = false ∧ (c != ' ') = true := by
  by_cases h0 : n = 0
  · rw [renderNat, if_pos h0] at hc
    simp only [List.mem_singleton] at hc
    subst hc
    exact ⟨rfl, rfl, rfl⟩
  · rw [renderNat_eq_digits h0, List.mem_reverse, List.mem_map] at hc
    obtain ⟨d, hd, rfl⟩ := hc
    obtain ⟨p1, p2, p3, -⟩ := digitChar_props d (Nat.digits_lt_base (by norm_num) hd)
    exact ⟨p1, p2, p3⟩

/-- A rendered numeral is never empty. -/
lemma renderNat_ne_nil (n : Nat) : renderNat n ≠ [] := by
  by_cases h0 : n = 0
  · simp [renderNat, h0]
  · rw [renderNat_eq_digits h0]
    simp only [ne_eq, List.reverse_eq_nil_iff, List.map_eq_nil_iff]
    exact Nat.digits_ne_nil_iff_ne_zero.mpr h0

/-- Folding the digit-accumulation step over a reversed digit rendering
computes positionally, in terms of `Nat.ofDigits`. -/
lemma foldl_digitChars (L : List Nat) (hL : ∀ d ∈ L, d < 10) (a : Nat) :
    ((L.map digitChar).reverse).foldl (fun acc c => 10 * acc + digitVal c) a
      = a * 10 ^ L.length + Nat.ofDigits 10 L := by
  induction L generalizing a with
  | nil => simp
  | cons d L ih =>
    have hd : d < 10 := hL d (by simp)
    have hL' : ∀ x ∈ L, x < 10 := fun x hx => hL x (by simp [hx])
    simp only [List.map_cons, List.reverse_cons, List.foldl_append, List.foldl_cons,
      List.foldl_nil]
    rw [ih hL', (digitChar_props d hd).2.2.2, Nat.ofDigits_cons, List.length_cons]
    ring

/-- The matcher's numeral reading inverts the rendering (`int` of the
digit run). -/
lemma natOfDigits_renderNat (n : Nat) : natOfDigits (renderNat n) = n := by
  by_cases h0 : n = 0
  · simp [renderNat, h0, natOfDigits, digitVal]
  · rw [renderNat_eq_digits h0, natOfDigits,
      foldl_digitChars _ (fun d hd => Nat.digits_lt_base (by norm_num) hd) 0]
    simp [Nat.ofDigits_digits]

/-- Greedy digit taking splits a digit run followed by a non-digit. -/
lemma takeDigits_append (ds rest : List Char) (h1 : ∀ c ∈ ds, c.isDigit = true)
    (h2 : ∀ c, rest.head? = some c → c.isDigit = false) :
    takeDigits (ds ++ rest) = (ds, rest) := by
  induction ds with
  | nil =>
    simp only [List.nil_append]
    cases rest with
    | nil => rfl
    | cons c r => simp [takeDigits, h2 c rfl]
  | cons c ds ih =>
    have hc : c.isDigit = true := h1 c (by simp)
    simp only [List.cons_append, takeDigits, hc, if_true, List.append_eq]
    rw [ih (fun x hx => h1 x (by simp [hx]))]

/-- On an empty input every optional component matches empty. -/
lemma matchComp_nil (suf : Char) : matchComp suf [] = (none, []) := rfl

/-- An optional component consumes a present rendered numeral and its
(case-insensitively matching, non-digit) suffix letter. -/
lemma matchComp_take (suf c : Char) (n : Nat) (rest : List Char)
    (hc1 : c.isDigit = false) (hc2 : eqIgnoreCase c suf = true) :
    matchComp suf (renderNat n ++ c :: rest) = (some n, rest) := by
  obtain ⟨d, ds', hds⟩ := List.exists_cons_of_ne_nil (renderNat_ne_nil n)
  have htd : takeDigits ((d :: ds') ++ c :: rest) = (d :: ds', c :: rest) :=
    takeDigits_append _ _ (fun x hx => (renderNat_mem (hds ▸ hx)).1)
      (fun x hx => by cases hx; exact hc1)
  rw [hds]
  simp only [matchComp]
  rw [htd]
  simp only [hc2, if_true]
  rw [← hds, natOfDigits_renderNat]

/-- An optional component does not fire when the digit run (possibly
empty) is followed by a non-digit letter that fails the case-insensitive
suffix comparison; no input is consumed. -/
lemma matchComp_skip (suf : Char) (ds : List Char) (c : Char) (r : List Char)
    (h1 : ∀ x ∈ ds, x.isDigit = true) (hc1 : c.isDigit = false)
    (hcs : eqIgnoreCase c suf = false) :
    matchComp suf (ds ++ c :: r) = (none, ds ++ c :: r) := by
  have htd : takeDigits (ds ++ c :: r) = (ds, c :: r) :=
    takeDigits_append _ _ h1 (fun x hx => by cases hx; exact hc1)
  cases ds with
  | nil =>
    simp only [List.nil_append] at htd ⊢
    simp only [matchComp]
    rw [htd]
  | cons d ds' =>
    simp only [matchComp]
    rw [htd]
    simp [hcs]

/-- Every character of a rendered component is a digit or its suffix. -/
lemma comp_mem {o : Option Nat} {sc c : Char} (hc : c ∈ comp o sc) :
    (c.isDigit = true ∧ isWs c = false ∧ (c != ' ') = true) ∨ c = sc := by
  cases o with
  | none => simp [comp] at hc
  | some n =>
    simp only [comp, List.mem_append, List.mem_singleton] at hc
    rcases hc with h | h
    · exact Or.inl (renderNat_mem h)
    · exact Or.inr h

/-- Skipping over an absent-or-mismatching leading component. -/
lemma matchComp_skip_comp (suf : Char) (o : Option Nat) (sc : Char) (rest : List Char)
    (hd : sc.isDigit = false) (hne : eqIgnoreCase sc suf = false)
    (hrest : matchComp suf rest = (none, rest)) :
    matchComp suf (comp o sc ++ rest) = (none, comp o sc ++ rest) := by
  cases o with
  | none => simpa [comp] using hrest
  | some n =>
    have : comp (some n) sc ++ rest = renderNat n ++ sc :: rest := by
      simp [comp]
    rw [this]
    exact matchComp_skip suf (renderNat n) sc rest
      (fun x hx => (renderNat_mem hx).1) hd hne

/-- Variant of `matchComp_skip_comp` with nothing after the component. -/
lemma matchComp_skip_comp0 (suf : Char) (o : Option Nat) (sc : Char)
    (hd : sc.isDigit = false) (hne : eqIgnoreCase sc suf = false) :
    matchComp suf (comp o sc) = (none, comp o sc) := by
  have := matchComp_skip_comp suf o sc [] hd hne (matchComp_nil suf)
  simpa using this

/-- Suffix variants are never digits. -/
lemma suf_no_digit (x : Char) (b : Bool) (hx : x ∈ ['d', 'h', 'm', 's']) :
    (sufOf x b).isDigit = false := (sufOf_facts b x hx x hx).1

/-- Suffix variants are never whitespace. -/
lemma suf_no_ws (x : Char) (b : Bool) (hx : x ∈ ['d', 'h', 'm', 's']) :
    isWs (sufOf x b) = false := (sufOf_facts b x hx x hx).2.1

/-- A suffix variant matches its own base letter case-insensitively. -/
lemma suf_eq (x : Char) (b : Bool) (hx : x ∈ ['d', 'h', 'm', 's']) :
    eqIgnoreCase (sufOf x b) x = true := by
  rw [(sufOf_facts b x hx x hx).2.2.2]
  simp

/-- A suffix variant fails case-insensitive comparison with a different
base letter. -/
lemma suf_ne (x y : Char) (b : Bool) (hx : x ∈ ['d', 'h', 'm', 's'])
    (hy : y ∈ ['d', 'h', 'm', 's']) (hxy : (x == y) = false) :
    eqIgnoreCase (sufOf x b) y = false := by
  rw [(sufOf_facts b x hx y hy).2.2.2]
  exact hxy

/-- Matching one component of the generated string: consumed when
present, skipped when absent (in which case the component contributes no
characters). -/
lemma matchComp_comp (suf : Char) (b : Bool) (o : Option Nat) (rest : List Char)
    (hsuf : suf ∈ ['d', 'h', 'm', 's'])
    (hrest : o = none → matchComp suf rest = (none, rest)) :
    matchComp suf (comp o (sufOf suf b) ++ rest) = (o, rest) := by
  cases o with
  | none => simpa [comp] using hrest rfl
  | some n =>
    have : comp (some n) (sufOf suf b) ++ rest = renderNat n ++ (sufOf suf b) :: rest := by
      simp [comp]
    rw [this]
    exact matchComp_take suf (sufOf suf b) n rest (suf_no_digit suf b hsuf)
      (suf_eq suf b hsuf)

/-- Characters of a rendered component are never whitespace. -/
lemma comp_no_ws (o : Option Nat) (x : Char) (b : Bool) (hx : x ∈ ['d', 'h', 'm', 's']) :
    ∀ c ∈ comp o (sufOf x b), isWs c = false := by
  intro c hc
  rcases comp_mem hc with ⟨-, h, -⟩ | rfl
  · exact h
  · exact suf_no_ws x b hx

/-- Characters of a rendered component are never the space character. -/
lemma comp_no_space (o : Option Nat) (x : Char) (b : Bool) (hx : x ∈ ['d', 'h', 'm', 's']) :
    ∀ c ∈ comp o (sufOf x b), (c != ' ') = true := by
  intro c hc
  rcases comp_mem hc with ⟨-, -, h⟩ | rfl
  · exact h
  · exact (sufOf_facts b x hx x hx).2.2.1

/-- Concatenation preserves a pointwise character property. -/
lemma append_all {p : Char → Prop} {l1 l2 : List Char}
    (h1 : ∀ c ∈ l1, p c) (h2 : ∀ c ∈ l2, p c) : ∀ c ∈ l1 ++ l2, p c := by
  intro c hc
  rcases List.mem_append.mp hc with h | h
  · exact h1 c h
  · exact h2 c h

/-- Dropping whitespace is the identity on whitespace-free strings. -/
lemma dropWhile_no_ws {l : List Char} (h : ∀ c ∈ l, isWs c = false) :
    l.dropWhile isWs = l := by
  cases l with
  | nil => rfl
  | cons c l =>
    rw [List.dropWhile_cons, h c (by simp)]
    simp

/-- Stripping is the identity on whitespace-free strings. -/
lemma stripWs_no_ws {l : List Char} (h : ∀ c ∈ l, isWs c = false) :
    stripWs l = l := by
  unfold stripWs
  rw [dropWhile_no_ws h, dropWhile_no_ws (fun c hc => h c (List.mem_reverse.mp hc)),
    List.reverse_reverse]

/-- Removing spaces is the identity on space-free strings. -/
lemma removeSpaces_no_space {l : List Char} (h : ∀ c ∈ l, (c != ' ') = true) :
    removeSpaces l = l := by
  unfold removeSpaces
  rw [List.filter_eq_self]
  exact h

/-- Removing spaces annihilates a space run. -/
lemma removeSpaces_spacesN (k : Nat) : removeSpaces (spacesN k) = [] := by
  induction k with
  | zero => rfl
  | succ k ih =>
    unfold spacesN removeSpaces at ih ⊢
    rw [List.replicate_succ, List.filter_cons]
    simp [ih]

set_option maxHeartbeats 2000000 in
/-- `DUR_RE.fullmatch` on a generated canonical duration string captures
exactly the generated groups. -/
lemma fullmatch_genDur (od oh om os : Option Nat) (bd bh bm bs : Bool) :
    DUR_RE_fullmatch (genDur od oh om os bd bh bm bs) = some ⟨od, oh, om, os⟩ := by
  have md : ('d' : Char) ∈ ['d', 'h', 'm', 's'] := by decide
  have mh : ('h' : Char) ∈ ['d', 'h', 'm', 's'] := by decide
  have mm : ('m' : Char) ∈ ['d', 'h', 'm', 's'] := by decide
  have ms : ('s' : Char) ∈ ['d', 'h', 'm', 's'] := by decide
  have hne_hd : (('h' : Char) == 'd') = false := by decide
  have hne_md : (('m' : Char) == 'd') = false := by decide
  have hne_sd : (('s' : Char) == 'd') = false := by decide
  have hne_mh : (('m' : Char) == 'h') = false := by decide
  have hne_sh : (('s' : Char) == 'h') = false := by decide
  have hne_sm : (('s' : Char) == 'm') = false := by decide
  -- stage 1: the days component against the whole string
  have h1 : matchComp 'd'
      (comp od (sufOf 'd' bd) ++ (comp oh (sufOf 'h' bh) ++ (comp om (sufOf 'm' bm) ++ comp os (sufOf 's' bs))))
      = (od, comp oh (sufOf 'h' bh) ++ (comp om (sufOf 'm' bm) ++ comp os (sufOf 's' bs))) :=
    matchComp_comp 'd' bd od _ md (fun _ =>
      matchComp_skip_comp 'd' oh (sufOf 'h' bh) _ (suf_no_digit 'h' bh mh) (suf_ne 'h' 'd' bh mh md hne_hd)
        (matchComp_skip_comp 'd' om (sufOf 'm' bm) _ (suf_no_digit 'm' bm mm) (suf_ne 'm' 'd' bm mm md hne_md)
          (matchComp_skip_comp0 'd' os (sufOf 's' bs) (suf_no_digit 's' bs ms) (suf_ne 's' 'd' bs ms md hne_sd))))
  -- stage 2: the hours component against the remainder
  have h2 : matchComp 'h'
      (comp oh (sufOf 'h' bh) ++ (comp om (sufOf 'm' bm) ++ comp os (sufOf 's' bs)))
      = (oh, comp om (sufOf 'm' bm) ++ comp os (sufOf 's' bs)) :=
    matchComp_comp 'h' bh oh _ mh (fun _ =>
      matchComp_skip_comp 'h' om (sufOf 'm' bm) _ (suf_no_digit 'm' bm mm) (suf_ne 'm' 'h' bm mm mh hne_mh)
        (matchComp_skip_comp0 'h' os (sufOf 's' bs) (suf_no_digit 's' bs ms) (suf_ne 's' 'h' bs ms mh hne_sh)))
  -- stage 3: the minutes component
  have h3 : matchComp 'm' (comp om (sufOf 'm' bm) ++ comp os (sufOf 's' bs))
      = (om, comp os (sufOf 's' bs)) :=
    matchComp_comp 'm' bm om _ mm (fun _ =>
      matchComp_skip_comp0 'm' os (sufOf 's' bs) (suf_no_digit 's' bs ms) (suf_ne 's' 'm' bs ms mm hne_sm))
  -- stage 4: the seconds component against comp os ++ []
  have h4 : matchComp 's' (comp os (sufOf 's' bs) ++ []) = (os, []) :=
    matchComp_comp 's' bs os [] ms (fun _ => matchComp_nil 's')
  have h4' : matchComp 's' (comp os (sufOf 's' bs)) = (os, []) := by
    rw [← List.append_nil (comp os (sufOf 's' bs))]
    exact h4
  -- whitespace-freeness of the remainders
  have w2 : ∀ c ∈ comp oh (sufOf 'h' bh) ++ (comp om (sufOf 'm' bm) ++ comp os (sufOf 's' bs)),
      isWs c = false :=
    append_all (comp_no_ws oh 'h' bh mh)
      (append_all (comp_no_ws om 'm' bm mm) (comp_no_ws os 's' bs ms))
  have w3 : ∀ c ∈ comp om (sufOf 'm' bm) ++ comp os (sufOf 's' bs), isWs c = false :=
    append_all (comp_no_ws om 'm' bm mm) (comp_no_ws os 's' bs ms)
  have w4 : ∀ c ∈ comp os (sufOf 's' bs), isWs c = false := comp_no_ws os 's' bs ms
  unfold genDur
  simp only [List.append_assoc]
  simp only [DUR_RE_fullmatch, h1, dropWhile_no_ws w2, h2, dropWhile_no_ws w3, h3,
    dropWhile_no_ws w4, h4']
  simp

/-- Removing spaces distributes over concatenation. -/
lemma removeSpaces_append (l1 l2 : List Char) :
    removeSpaces (l1 ++ l2) = removeSpaces l1 ++ removeSpaces l2 := by
  simp [removeSpaces, List.filter_append]

/-- Removing spaces from the space-separated generated string yields the
canonical one. -/
lemma removeSpaces_genDurSp (od oh om os : Option Nat) (w1 w2 w3 : Nat)
    (bd bh bm bs : Bool) :
    removeSpaces (genDurSp od oh om os w1 w2 w3 bd bh bm bs)
      = genDur od oh om os bd bh bm bs := by
  have md : ('d' : Char) ∈ ['d', 'h', 'm', 's'] := by decide
  have mh : ('h' : Char) ∈ ['d', 'h', 'm', 's'] := by decide
  have mm : ('m' : Char) ∈ ['d', 'h', 'm', 's'] := by decide
  have ms : ('s' : Char) ∈ ['d', 'h', 'm', 's'] := by decide
  unfold genDurSp genDur
  simp only [removeSpaces_append, removeSpaces_spacesN,
    removeSpaces_no_space (comp_no_space od 'd' bd md),
    removeSpaces_no_space (comp_no_space oh 'h' bh mh),
    removeSpaces_no_space (comp_no_space om 'm' bm mm),
    removeSpaces_no_space (comp_no_space os 's' bs ms),
    List.append_nil, List.nil_append]

/-- The group total of a built record is the component total. -/
lemma durTotalG_mk (od oh om os : Option Nat) :
    durTotalG ⟨od, oh, om, os⟩ = durTotal od oh om os := rfl

/-- C4.  For every duration string composed of optional integer
components with suffixes d, h, m, s in that order (each at most once,
either letter case, optional space separation) whose total duration is
positive, and for every `now`, parsing returns `now` plus the encoded
total in seconds — provided the string does not parse as an absolute
datetime (the abstracted `dateutil` call fails on it), since the
absolute branch is tried first. -/
theorem claim_C4_duration_semantics (absParse : List Char → Option AbsDT)
    (od oh om os : Option Nat) (w1 w2 w3 : Nat) (bd bh bm bs : Bool) (now : Int)
    (habs : absParse (stripWs (genDurSp od oh om os w1 w2 w3 bd bh bm bs)) = none)
    (hpos : 0 < durTotal od oh om os) :
    parse_duration_or_time absParse
        (String.mk (genDurSp od oh om os w1 w2 w3 bd bh bm bs)) now
      = .ok (now + (durTotal od oh om os : Int)) := by
  have md : ('d' : Char) ∈ ['d', 'h', 'm', 's'] := by decide
  have mh : ('h' : Char) ∈ ['d', 'h', 'm', 's'] := by decide
  have mm : ('m' : Char) ∈ ['d', 'h', 'm', 's'] := by decide
  have ms : ('s' : Char) ∈ ['d', 'h', 'm', 's'] := by decide
  have hng : ∀ c ∈ genDur od oh om os bd bh bm bs, isWs c = false := by
    unfold genDur
    simp only [List.append_assoc]
    exact append_all (comp_no_ws od 'd' bd md)
      (append_all (comp_no_ws oh 'h' bh mh)
        (append_all (comp_no_ws om 'm' bm mm) (comp_no_ws os 's' bs ms)))
  have hkey : removeSpaces (stripWs (genDurSp od oh om os w1 w2 w3 bd bh bm bs))
      = genDur od oh om os bd bh bm bs := by
    rw [removeSpaces_stripWs, removeSpaces_genDurSp, stripWs_no_ws hng]
  simp only [parse_duration_or_time, String.toList]
  rw [habs, hkey, fullmatch_genDur]
  simp only [durTotalG_mk]
  rw [if_neg (by omega : ¬durTotal od oh om os = 0)]

/-- Witness for C4: the generated string for 1 day and 30 minutes with a
space separator is `"1d 30m"` and parses to `now + 88200` seconds. -/
theorem claim_C4_duration_semantics_witness :
    parse_duration_or_time (fun _ => none)
        (String.mk (genDurSp (some 1) none (some 30) none 1 0 0 false false false false)) 0
      = .ok 88200 ∧
    String.mk (genDurSp (some 1) none (some 30) none 1 0 0 false false false false)
      = "1d 30m" := by
  constructor
  · have h := claim_C4_duration_semantics (fun _ => none)
      (some 1) none (some 30) none 1 0 0 false false false false 0 rfl (by decide)
    simpa using h
  · rfl

end NZ
